import Mathlib

/-!
Shallow embedding of the name-resolution / matching subsystem of the
zen-free-models repository (source file `src/matching/index.ts`), together
with theorems settling the frozen claims about it.

Modelling conventions:
* JS strings are Lean `String`s (ASCII case folding, as all data involved is
  ASCII identifiers/display names).
* A JS `Map` is an association list in which `set` prepends a binding and
  `get` returns the most recent binding, which realizes the JS overwrite
  (last-write-wins) semantics for `get`.
* A JS `Set` is a duplicate-free list in insertion order (`setAdd`).
* `JSON.parse` and the network transport are oracles supplied by the
  environment; exceptions are `Except`.
-/

namespace ZenMatch

/-! ### Character and string primitives -/

def isDigitCh (c : Char) : Bool := '0' ≤ c && c ≤ '9'

def isLowerCh (c : Char) : Bool := 'a' ≤ c && c ≤ 'z'

def lowerChar (c : Char) : Char :=
  if 'A' ≤ c && c ≤ 'Z' then Char.ofNat (c.toNat + 32) else c

/-- ASCII model of JS `String.prototype.toLowerCase`. -/
def toLower (s : String) : String := ⟨s.data.map lowerChar⟩

/-- Characters retained by `NORM_REGEX = /[^a-z0-9.]/g` (after lowercasing). -/
def isNormChar (c : Char) : Bool := isLowerCh c || isDigitCh c || c == '.'

/-- `const norm = (s) => s.toLowerCase().replace(NORM_REGEX, "")`. -/
def norm (s : String) : String := ⟨(toLower s).data.filter isNormChar⟩

/-- JS whitespace recognized by `trim` (the subset relevant to this data). -/
def isWsCh (c : Char) : Bool := c == ' ' || c == '\t' || c == '\n' || c == '\r'

/-- `!s.trim()`: true iff the string trims to the empty (falsy) string. -/
def trimIsEmpty (s : String) : Bool := s.data.all isWsCh

/-- Is `sub` an initial segment of `l` (used to model JS `includes`/`endsWith`). -/
def leadsList : List Char → List Char → Bool
  | [], _ => true
  | _ :: _, [] => false
  | a :: as, b :: bs => a == b && leadsList as bs

/-- JS `s.includes(sub)`: `sub` occurs contiguously in `s`. -/
def hasSubList (sub : List Char) : List Char → Bool
  | [] => sub.isEmpty
  | c :: cs => leadsList sub (c :: cs) || hasSubList sub cs

def strIncludes (s sub : String) : Bool := hasSubList sub.data s.data

/-- JS `s.endsWith(suf)`. -/
def strEndsWith (s suf : String) : Bool := leadsList suf.data.reverse s.data.reverse

/-! ### JS `Set` model: duplicate-free list in insertion order -/

def setAdd (s : List String) (x : String) : List String :=
  if x ∈ s then s else s ++ [x]

/-! ### Token extraction (`extractTokens`)

`lower.matchAll(/\d+(?:\.\d+)?/g)` yields, scanning left to right, each maximal
digit run optionally extended by a dot and a further nonempty digit run;
`lower.matchAll(/[a-z]{2,}/g)` yields each maximal alphabetic run of length
at least 2. -/

/-- The number-token scan, with structural fuel (one unit per consumed
character; the wrapper supplies the input length, which always suffices). -/
def numTokensGo : Nat → List Char → List String
  | 0, _ => []
  | _, [] => []
  | fuel + 1, c :: cs =>
    if isDigitCh c then
      let ds := (c :: cs).takeWhile isDigitCh
      match cs.dropWhile isDigitCh with
      | '.' :: r2 =>
        if (r2.takeWhile isDigitCh).isEmpty then
          String.mk ds :: numTokensGo fuel ('.' :: r2)
        else
          String.mk (ds ++ '.' :: r2.takeWhile isDigitCh)
            :: numTokensGo fuel (r2.dropWhile isDigitCh)
      | r1 => String.mk ds :: numTokensGo fuel r1
    else numTokensGo fuel cs

def numTokens (l : List Char) : List String := numTokensGo l.length l

/-- The word-token scan (alphabetic runs of length at least 2), fuelled the
same way. -/
def alphaTokensGo : Nat → List Char → List String
  | 0, _ => []
  | _, [] => []
  | fuel + 1, c :: cs =>
    if isLowerCh c then
      let run := (c :: cs).takeWhile isLowerCh
      if 2 ≤ run.length then String.mk run :: alphaTokensGo fuel (cs.dropWhile isLowerCh)
      else alphaTokensGo fuel (cs.dropWhile isLowerCh)
    else alphaTokensGo fuel cs

def alphaTokens (l : List Char) : List String := alphaTokensGo l.length l

/-- `extractTokens`: numbers then word fragments, collected into a JS `Set`. -/
def extractTokens (s : String) : List String :=
  let lower := toLower s
  (numTokens lower.data ++ alphaTokens lower.data).foldl setAdd []

/-! ### Candidate prefilter (`prefilterCandidates`)

The per-name `nameTokens` map built by the source is dead after construction
(only the union `allNameTokens` is read), so it is not modelled. -/

/-- The union `allNameTokens` of every display name's token set. -/
def allNameTokensOf (names : List String) : List String :=
  names.foldl (fun acc n => (extractTokens n).foldl setAdd acc) []

/-- First candidate loop: include an id if any of its tokens overlaps the
name-token union (the `break` is membership in a set, hence `any`). -/
def overlapCandidates (apiIds names : List String) : List String :=
  apiIds.foldl
    (fun cs id =>
      if (extractTokens id).any (fun t => t ∈ allNameTokensOf names) then setAdd cs id
      else cs)
    []

/-- Second loop: always include ids ending in "-free"; return the set. -/
def prefilterCandidates (apiIds names : List String) : List String :=
  apiIds.foldl
    (fun cs id => if strEndsWith (toLower id) "-free" then setAdd cs id else cs)
    (overlapCandidates apiIds names)

/-! ### Identifier index (`buildMaps`) -/

def mapGet (m : List (String × String)) (k : String) : Option String :=
  (m.find? (fun p => p.1 == k)).map (fun p => p.2)

structure IdMaps where
  lower : List (String × String)
  normalized : List (String × String)

def buildMaps (apiIds : List String) : IdMaps :=
  apiIds.foldl
    (fun m id =>
      { lower := (toLower id, id) :: m.lower
        normalized := (norm id, id) :: m.normalized })
    ⟨[], []⟩

/-! ### Deterministic matcher (`matchWithNormalization`) -/

def matchWithNormalization (names : List String) (maps : IdMaps) : List String :=
  names.foldl
    (fun result name =>
      let actual :=
        match mapGet maps.normalized (norm name) with
        | some v => some v
        | none => mapGet maps.normalized (norm name ++ "free")
      match actual with
      | some v => if v == "" then result else setAdd result v
      | none => result)
    []

/-! ### Validation and public entry points

Call arguments are JS values: the `Array.isArray` / `typeof` checks need a
universe that includes non-arrays and non-strings. -/

inductive JVal where
  | str (s : String)
  | arr (elems : List JVal)
  | other

/-- The element test of `validate`: `typeof v !== "string" || !v.trim()`. -/
def badElem (v : JVal) : Bool :=
  match v with
  | .str s => trimIsEmpty s
  | _ => true

def validate (apiIds names : JVal) : Except String Unit :=
  match apiIds with
  | .arr ids =>
    match names with
    | .arr ns =>
      if ids.any badElem then .error "Invalid apiId: expected non-empty string"
      else if ns.any badElem then .error "Invalid name: expected non-empty string"
      else .ok ()
    | _ => .error "names must be an array"
  | _ => .error "apiIds must be an array"

def jvalStrings (v : JVal) : List String :=
  match v with
  | .arr l => l.filterMap (fun e => match e with | .str s => some s | _ => none)
  | _ => []

/-- Lift a list of strings to the JS argument it denotes. -/
def strArr (l : List String) : JVal := .arr (l.map .str)

def matchModels (apiIds names : JVal) : Except String (List String) :=
  match validate apiIds names with
  | .error e => .error e
  | .ok _ =>
    .ok (matchWithNormalization (jvalStrings names) (buildMaps (jvalStrings apiIds)))

/-! ### LLM response parsing (`LLMResponseSchema`, `parseLLMResponse`)

`JSON.parse` is modelled as an oracle `String → Option Json` (`none` for a
parse exception); the zod union is translated branch by branch. -/

inductive Json where
  | null
  | bool (b : Bool)
  | num (n : Int)
  | str (s : String)
  | arr (elems : List Json)
  | obj (fields : List (String × Json))

structure MatchPair where
  displayName : String
  apiId : String
deriving DecidableEq

/-- JS object property access on parsed JSON. -/
def jlookup (kvs : List (String × Json)) (k : String) : Option Json :=
  ((kvs.find? (fun p => p.1 == k)).map (fun p => p.2))

/-- `z.object(\x7b displayName: z.string(), apiId: z.string() \x7d)`. -/
def parsePair : Json → Option MatchPair
  | .obj kvs =>
    match jlookup kvs "displayName", jlookup kvs "apiId" with
    | some (.str d), some (.str a) => some ⟨d, a⟩
    | _, _ => none
  | _ => none

/-- `z.array` of the pair schema. -/
def parsePairs : List Json → Option (List MatchPair)
  | [] => some []
  | j :: js =>
    match parsePair j, parsePairs js with
    | some p, some ps => some (p :: ps)
    | _, _ => none

/-- The three members of the zod union, as the parsed (TS-typed) data. -/
inductive LLMData where
  | matchesObj (ps : List MatchPair)
  | bareArr (ps : List MatchPair)
  | record (kvs : List (String × List MatchPair))

def parseMatchesObj : Json → Option LLMData
  | .obj kvs =>
    match jlookup kvs "matches" with
    | some (.arr xs) => (parsePairs xs).map .matchesObj
    | _ => none
  | _ => none

def parseBareArr : Json → Option LLMData
  | .arr xs => (parsePairs xs).map .bareArr
  | _ => none

/-- `z.record(z.string(), z.array(pair))`: every value must be a pair array. -/
def parseRecordFields : List (String × Json) → Option (List (String × List MatchPair))
  | [] => some []
  | (k, v) :: rest =>
    match v with
    | .arr xs =>
      match parsePairs xs, parseRecordFields rest with
      | some ps, some rs => some ((k, ps) :: rs)
      | _, _ => none
    | _ => none

/-- `LLMResponseSchema.safeParse`: the zod union tries its members in order. -/
def zodParse (j : Json) : Option LLMData :=
  match parseMatchesObj j with
  | some d => some d
  | none =>
    match parseBareArr j with
    | some d => some d
    | none =>
      match j with
      | .obj kvs => (parseRecordFields kvs).map .record
      | _ => none

/-- `parseLLMResponse`, applied to the outcome of `JSON.parse(content)`. -/
def parseLLMResponse (parsed : Option Json) : List MatchPair :=
  match parsed with
  | none => []
  | some j =>
    match zodParse j with
    | none => []
    | some (.matchesObj ps) => ps
    | some (.bareArr ps) => ps
    | some (.record kvs) =>
      match kvs.find? (fun p => p.1 == "matches") with
      | some p => p.2
      | none =>
        match kvs with
        | [] => []
        | (_, ps) :: _ => ps

/-! ### Error classification and retry (`isRetryable`, `callLLM`) -/

/-- A thrown JS value: an `OpenAI.APIError`, a plain `Error`, or anything
else (recorded via its `String(err)` rendering). -/
inductive JsErr where
  | api (status : Option Nat) (message : String)
  | err (message : String)
  | other (asString : String)
deriving DecidableEq

/-- Message of `err instanceof Error ? err : new Error(String(err))`. -/
def errMessage : JsErr → String
  | .api _ m => m
  | .err m => m
  | .other s => s

def isRetryable : JsErr → Bool
  | .api status _ =>
    match status with
    | some s => s == 429 || 500 ≤ s
    | none => false
  | .err m =>
    let msg := toLower m
    strIncludes msg "network" || strIncludes msg "timeout" || strIncludes msg "econnreset"
  | .other _ => false

structure RetryConfig where
  maxRetries : Nat
  initialDelayMs : Nat

/-- `res.choices[0]?.message?.content || "\x7b\x7d"`. -/
def contentOrDefault : Option String → String
  | none => "\x7b\x7d"
  | some s => if s == "" then "\x7b\x7d" else s

/-- Result of one `callLLM` run: the value returned or error thrown, the
number of backend attempts made, and the backoff delays slept in order. -/
structure CallTrace where
  result : Except JsErr String
  attempts : Nat
  delays : List Nat

/-- The retry loop of `callLLM`, from attempt `i` with `rem` loop iterations
left; `lastMsg` is the message of `lastErr` if assigned. -/
def callLLMFrom (oracle : Nat → Except JsErr (Option String)) (cfg : RetryConfig) :
    Nat → Nat → Option String → CallTrace
  | 0, _, lastMsg =>
    { result := .error (.err ("LLM failed after " ++ toString cfg.maxRetries ++
        " attempts: " ++ lastMsg.getD "undefined"))
      attempts := 0
      delays := [] }
  | rem + 1, i, _ =>
    match oracle i with
    | .ok c => { result := .ok (contentOrDefault c), attempts := 1, delays := [] }
    | .error e =>
      if isRetryable e then
        let rest := callLLMFrom oracle cfg rem (i + 1) (some (errMessage e))
        { result := rest.result
          attempts := rest.attempts + 1
          delays :=
            (if i < cfg.maxRetries then [cfg.initialDelayMs * 2 ^ (i - 1)] else [])
              ++ rest.delays }
      else { result := .error e, attempts := 1, delays := [] }

def callLLM (oracle : Nat → Except JsErr (Option String)) (cfg : RetryConfig) : CallTrace :=
  callLLMFrom oracle cfg cfg.maxRetries 1 none

/-! ### LLM match processing and the top-level entry point -/

/-- `processLLMMatches`: returns (result, matchedNames), both JS sets. -/
def processLLMMatches (llmMatches : List MatchPair) (maps : IdMaps) :
    List String × List String :=
  llmMatches.foldl
    (fun acc m =>
      match mapGet maps.lower (toLower m.apiId) with
      | some actual =>
        if actual == "" then acc
        else (setAdd acc.1 actual, setAdd acc.2 (toLower m.displayName))
      | none => acc)
    ([], [])

/-- The LLM-result reconciliation inside `matchModelsWithLLM`: accepted LLM
matches merged with normalization over the names the LLM left unmatched. -/
def llmMerge (ns : List String) (pairs : List MatchPair) (maps : IdMaps) : List String :=
  let processed := processLLMMatches pairs maps
  let unmatchedNames := ns.filter (fun n => !(processed.2.contains (toLower n)))
  if 0 < unmatchedNames.length then
    (matchWithNormalization unmatchedNames maps).foldl setAdd processed.1
  else processed.1

/-- Ambient state of one `matchModelsWithLLM` run: whether
`process.env.OPENAI_API_KEY` is set, the backend transport (per-attempt
outcome; prompt construction from names and candidates is absorbed into the
oracle since no claim relates the response to the prompt), the `JSON.parse`
oracle, and the retry configuration. -/
structure Env where
  hasApiKey : Bool
  oracle : Nat → Except JsErr (Option String)
  jsonParse : String → Option Json
  cfg : RetryConfig

def matchModelsWithLLM (env : Env) (apiIds names : JVal) : Except String (List String) :=
  match validate apiIds names with
  | .error e => .error e
  | .ok _ =>
    let ids := jvalStrings apiIds
    let ns := jvalStrings names
    if ns.length == 0 then .ok []
    else
      let maps := buildMaps ids
      if !env.hasApiKey then .ok (matchWithNormalization ns maps)
      else
        match (callLLM env.oracle env.cfg).result with
        | .error _ => .ok (matchWithNormalization ns maps)
        | .ok content =>
          let result := llmMerge ns (parseLLMResponse (env.jsonParse content)) maps
          if result.length == 0 then .ok (matchWithNormalization ns maps)
          else .ok result

/-! ### Helper lemmas -/

theorem mem_setAdd {s : List String} {x y : String} :
    y ∈ setAdd s x ↔ y ∈ s ∨ y = x := by
  by_cases h : x ∈ s
  · simp only [setAdd, if_pos h]
    exact ⟨fun hy => Or.inl hy, fun hy => hy.elim id (fun e => e ▸ h)⟩
  · simp [setAdd, if_neg h]

theorem nodup_setAdd {s : List String} {x : String} (h : s.Nodup) :
    (setAdd s x).Nodup := by
  by_cases hx : x ∈ s
  · simpa [setAdd, if_pos hx] using h
  · simp [setAdd, if_neg hx, List.nodup_append, h, hx]

theorem foldl_mem_invariant {β : Type} (f : List String → β → List String)
    (P : String → Prop) (hf : ∀ acc b y, y ∈ f acc b → y ∈ acc ∨ P y) :
    ∀ (l : List β) (acc : List String) y, y ∈ l.foldl f acc → y ∈ acc ∨ P y := by
  intro l
  induction l with
  | nil => intro acc y hy; exact Or.inl hy
  | cons b bs ih =>
    intro acc y hy
    rcases ih (f acc b) y hy with h | h
    · exact hf acc b y h
    · exact Or.inr h

theorem foldl_nodup_invariant {β : Type} (f : List String → β → List String)
    (hf : ∀ acc b, acc.Nodup → (f acc b).Nodup) :
    ∀ (l : List β) (acc : List String), acc.Nodup → (l.foldl f acc).Nodup := by
  intro l
  induction l with
  | nil => intro acc h; exact h
  | cons b bs ih => intro acc h; exact ih (f acc b) (hf acc b h)

theorem buildMaps_maps (ids : List String) :
    (buildMaps ids).normalized = ids.reverse.map (fun i => (norm i, i))
      ∧ (buildMaps ids).lower = ids.reverse.map (fun i => (toLower i, i)) := by
  have key : ∀ (l : List String) (m : IdMaps),
      (l.foldl (fun m id =>
          { lower := (toLower id, id) :: m.lower
            normalized := (norm id, id) :: m.normalized }) m)
        = ⟨l.reverse.map (fun i => (toLower i, i)) ++ m.lower,
           l.reverse.map (fun i => (norm i, i)) ++ m.normalized⟩ := by
    intro l
    induction l with
    | nil => intro m; simp
    | cons a l ih =>
      intro m
      simp only [List.foldl_cons, ih, List.reverse_cons, List.map_append, List.map_cons,
        List.map_nil, List.append_assoc, List.singleton_append]
  have h := key ids ⟨[], []⟩
  constructor
  · rw [show buildMaps ids = _ from h]
    simp
  · rw [show buildMaps ids = _ from h]
    simp

theorem mapGet_buildMaps_normalized (ids : List String) (k : String) :
    mapGet (buildMaps ids).normalized k = ids.reverse.find? (fun i => norm i == k) := by
  rw [mapGet, (buildMaps_maps ids).1, List.find?_map]
  have : ((fun p : String × String => p.1 == k) ∘ fun i => (norm i, i))
      = fun i => norm i == k := rfl
  rw [this, Option.map_map]
  have h2 : ((fun p : String × String => p.2) ∘ fun i => (norm i, i)) = id := rfl
  rw [h2, Option.map_id]
  rfl

theorem mapGet_buildMaps_lower (ids : List String) (k : String) :
    mapGet (buildMaps ids).lower k = ids.reverse.find? (fun i => toLower i == k) := by
  rw [mapGet, (buildMaps_maps ids).2, List.find?_map]
  have : ((fun p : String × String => p.1 == k) ∘ fun i => (toLower i, i))
      = fun i => toLower i == k := rfl
  rw [this, Option.map_map]
  have h2 : ((fun p : String × String => p.2) ∘ fun i => (toLower i, i)) = id := rfl
  rw [h2, Option.map_id]
  rfl

theorem mapGet_buildMaps_normalized_mem {ids : List String} {k v : String}
    (h : mapGet (buildMaps ids).normalized k = some v) : v ∈ ids := by
  rw [mapGet_buildMaps_normalized] at h
  have := List.mem_of_find?_eq_some h
  simpa using this

theorem mapGet_buildMaps_lower_mem {ids : List String} {k v : String}
    (h : mapGet (buildMaps ids).lower k = some v) : v ∈ ids := by
  rw [mapGet_buildMaps_lower] at h
  have := List.mem_of_find?_eq_some h
  simpa using this

theorem mem_foldl_setAdd {x : String} :
    ∀ (l acc : List String), x ∈ l.foldl setAdd acc ↔ x ∈ acc ∨ x ∈ l := by
  intro l
  induction l with
  | nil => intro acc; simp
  | cons a l ih =>
    intro acc
    rw [List.foldl_cons, ih (setAdd acc a)]
    rw [mem_setAdd]
    simp only [List.mem_cons]
    tauto

theorem matchWithNormalization_nodup (ns : List String) (maps : IdMaps) :
    (matchWithNormalization ns maps).Nodup := by
  exact foldl_nodup_invariant _
    (by
      intro acc b hacc
      simp only
      rcases mapGet maps.normalized (norm b) with _ | v
      · rcases mapGet maps.normalized (norm b ++ "free") with _ | v
        · exact hacc
        · by_cases hv : (v == "") = true
          · simpa [hv] using hacc
          · simpa [hv] using nodup_setAdd hacc
      · by_cases hv : (v == "") = true
        · simpa [hv] using hacc
        · simpa [hv] using nodup_setAdd hacc)
    ns [] List.nodup_nil

/-! ### Spec-side deterministic matcher

The following definitions restate, in the claim's own vocabulary, what the
deterministic matcher is said to compute: per name, look the normalization
key up in the (last-write-wins) index, then the key with "free" appended;
collect the hits in order, without duplicates. They are compared with the
map-based implementation above. -/

def lookupNormSpec (ids : List String) (k : String) : Option String :=
  ids.reverse.find? (fun i => norm i == k)

def resolveNameSpec (ids : List String) (name : String) : Option String :=
  match lookupNormSpec ids (norm name) with
  | some v => some v
  | none => lookupNormSpec ids (norm name ++ "free")

def matchDeterministicSpec (ids names : List String) : List String :=
  (names.filterMap (resolveNameSpec ids)).foldl setAdd []

theorem trimIsEmpty_nil : trimIsEmpty "" = true := rfl

theorem beq_empty_false_of_not_blank {v : String} (h : trimIsEmpty v = false) :
    (v == "") = false := by
  rcases eq_or_ne v "" with rfl | hv
  · rw [trimIsEmpty_nil] at h; cases h
  · exact beq_eq_false_iff_ne.mpr hv

theorem resolveNameSpec_mem {ids : List String} {name v : String}
    (h : resolveNameSpec ids name = some v) : v ∈ ids := by
  unfold resolveNameSpec lookupNormSpec at h
  rcases hfind : ids.reverse.find? (fun i => norm i == norm name) with _ | w
  · rw [hfind] at h
    have := List.mem_of_find?_eq_some h
    simpa using this
  · rw [hfind] at h
    cases h
    have := List.mem_of_find?_eq_some hfind
    simpa using this

theorem matchWithNormalization_eq_spec {ids : List String} (ns : List String)
    (hids : ∀ i ∈ ids, trimIsEmpty i = false) :
    matchWithNormalization ns (buildMaps ids) = matchDeterministicSpec ids ns := by
  unfold matchWithNormalization matchDeterministicSpec
  suffices key : ∀ (l : List String) (acc : List String),
      l.foldl
        (fun result name =>
          let actual :=
            match mapGet (buildMaps ids).normalized (norm name) with
            | some v => some v
            | none => mapGet (buildMaps ids).normalized (norm name ++ "free")
          match actual with
          | some v => if v == "" then result else setAdd result v
          | none => result)
        acc
      = (l.filterMap (resolveNameSpec ids)).foldl setAdd acc by
    exact key ns []
  intro l
  induction l with
  | nil => intro acc; rfl
  | cons n rest ih =>
    intro acc
    have hres : (match mapGet (buildMaps ids).normalized (norm n) with
        | some v => some v
        | none => mapGet (buildMaps ids).normalized (norm n ++ "free"))
        = resolveNameSpec ids n := by
      rw [mapGet_buildMaps_normalized, mapGet_buildMaps_normalized]
      rfl
    rcases hr : resolveNameSpec ids n with _ | v
    · simp only [List.foldl_cons, List.filterMap_cons, hr]
      rw [show (match mapGet (buildMaps ids).normalized (norm n) with
        | some v => some v
        | none => mapGet (buildMaps ids).normalized (norm n ++ "free")) = none
        from hres.trans hr]
      exact ih acc
    · have hv : (v == "") = false :=
        beq_empty_false_of_not_blank (hids v (resolveNameSpec_mem hr))
      simp only [List.foldl_cons, List.filterMap_cons, hr]
      rw [show (match mapGet (buildMaps ids).normalized (norm n) with
        | some v => some v
        | none => mapGet (buildMaps ids).normalized (norm n ++ "free")) = some v
        from hres.trans hr]
      simp only [hv, Bool.false_eq_true, if_false, List.foldl_cons]
      exact ih (setAdd acc v)

/-! ### Lifting and validation lemmas -/

theorem jvalStrings_strArr (l : List String) : jvalStrings (strArr l) = l := by
  unfold jvalStrings strArr
  induction l with
  | nil => rfl
  | cons a l ih => simpa using ih

theorem validate_strArr_iff (U N : List String) :
    validate (strArr U) (strArr N) = .ok ()
      ↔ ((∀ i ∈ U, trimIsEmpty i = false) ∧ (∀ n ∈ N, trimIsEmpty n = false)) := by
  unfold validate strArr
  have hmap : ∀ L : List String, (L.map JVal.str).any badElem = L.any trimIsEmpty := by
    intro L
    induction L with
    | nil => rfl
    | cons a l ih => simp only [List.map_cons, List.any_cons, ih]; rfl
  have hU := hmap U
  have hN := hmap N
  simp only [hU, hN]
  by_cases h1 : U.any trimIsEmpty = true
  · simp only [h1, if_true]
    constructor
    · intro h; cases h
    · intro ⟨ha, _⟩
      rcases List.any_eq_true.mp h1 with ⟨i, hi, hbad⟩
      rw [ha i hi] at hbad; cases hbad
  · simp only [h1]
    rw [if_neg (by simp [h1])]
    by_cases h2 : N.any trimIsEmpty = true
    · simp only [h2, if_true]
      constructor
      · intro h; cases h
      · intro ⟨_, hb⟩
        rcases List.any_eq_true.mp h2 with ⟨n, hn, hbad⟩
        rw [hb n hn] at hbad; cases hbad
    · rw [if_neg (by simp [h2])]
      constructor
      · intro _
        constructor
        · intro i hi
          by_contra hc
          exact h1 (List.any_eq_true.mpr ⟨i, hi, by simpa using hc⟩)
        · intro n hn
          by_contra hc
          exact h2 (List.any_eq_true.mpr ⟨n, hn, by simpa using hc⟩)
      · intro _; rfl

theorem matchModels_strArr {U N : List String}
    (h : validate (strArr U) (strArr N) = .ok ()) :
    matchModels (strArr U) (strArr N)
      = .ok (matchWithNormalization N (buildMaps U)) := by
  unfold matchModels
  rw [h, jvalStrings_strArr, jvalStrings_strArr]

theorem matchWithNormalization_mem {ids : List String} (ns : List String) :
    ∀ x ∈ matchWithNormalization ns (buildMaps ids), x ∈ ids := by
  unfold matchWithNormalization
  suffices key : ∀ (l acc : List String), (∀ y ∈ acc, y ∈ ids) →
      ∀ y ∈ l.foldl
        (fun result name =>
          let actual :=
            match mapGet (buildMaps ids).normalized (norm name) with
            | some v => some v
            | none => mapGet (buildMaps ids).normalized (norm name ++ "free")
          match actual with
          | some v => if v == "" then result else setAdd result v
          | none => result)
        acc, y ∈ ids by
    exact fun x hx => key ns [] (by simp) x hx
  intro l
  induction l with
  | nil => exact fun acc h => h
  | cons n rest ih =>
    intro acc hacc
    apply ih
    intro y hy
    simp only at hy
    rcases hget : mapGet (buildMaps ids).normalized (norm n) with _ | v
    · rcases hget2 : mapGet (buildMaps ids).normalized (norm n ++ "free") with _ | w
      · simp only [hget, hget2] at hy
        exact hacc y hy
      · simp only [hget, hget2] at hy
        by_cases hw : (w == "") = true
        · rw [if_pos hw] at hy; exact hacc y hy
        · rw [if_neg hw] at hy
          rcases mem_setAdd.mp hy with h' | h'
          · exact hacc y h'
          · exact h' ▸ mapGet_buildMaps_normalized_mem hget2
    · simp only [hget] at hy
      by_cases hw : (v == "") = true
      · rw [if_pos hw] at hy; exact hacc y hy
      · rw [if_neg hw] at hy
        rcases mem_setAdd.mp hy with h' | h'
        · exact hacc y h'
        · exact h' ▸ mapGet_buildMaps_normalized_mem hget

theorem nodup_foldl_setAdd (l : List String) {acc : List String} (h : acc.Nodup) :
    (l.foldl setAdd acc).Nodup :=
  foldl_nodup_invariant setAdd (fun _ _ hs => nodup_setAdd hs) l acc h

theorem processLLMMatches_invariant (ids : List String) (pairs : List MatchPair) :
    (∀ y ∈ (processLLMMatches pairs (buildMaps ids)).1, y ∈ ids)
      ∧ (processLLMMatches pairs (buildMaps ids)).1.Nodup := by
  unfold processLLMMatches
  suffices key : ∀ (l : List MatchPair) (acc : List String × List String),
      (∀ y ∈ acc.1, y ∈ ids) → acc.1.Nodup →
      (∀ y ∈ (l.foldl
        (fun acc m =>
          match mapGet (buildMaps ids).lower (toLower m.apiId) with
          | some actual =>
            if actual == "" then acc
            else (setAdd acc.1 actual, setAdd acc.2 (toLower m.displayName))
          | none => acc)
        acc).1, y ∈ ids)
      ∧ (l.foldl
        (fun acc m =>
          match mapGet (buildMaps ids).lower (toLower m.apiId) with
          | some actual =>
            if actual == "" then acc
            else (setAdd acc.1 actual, setAdd acc.2 (toLower m.displayName))
          | none => acc)
        acc).1.Nodup by
    exact key pairs ([], []) (by simp) List.nodup_nil
  intro l
  induction l with
  | nil => exact fun acc h1 h2 => ⟨h1, h2⟩
  | cons m rest ih =>
    intro acc h1 h2
    rw [List.foldl_cons]
    rcases hget : mapGet (buildMaps ids).lower (toLower m.apiId) with _ | v
    · simp only [hget]
      exact ih acc h1 h2
    · simp only [hget]
      by_cases hv : (v == "") = true
      · rw [if_pos hv]
        exact ih acc h1 h2
      · rw [if_neg hv]
        apply ih
        · intro y hy
          rcases mem_setAdd.mp hy with h' | h'
          · exact h1 y h'
          · exact h' ▸ mapGet_buildMaps_lower_mem hget
        · exact nodup_setAdd h2

theorem llmMerge_invariant (ids ns : List String) (pairs : List MatchPair) :
    (∀ y ∈ llmMerge ns pairs (buildMaps ids), y ∈ ids)
      ∧ (llmMerge ns pairs (buildMaps ids)).Nodup := by
  unfold llmMerge
  have hproc := processLLMMatches_invariant ids pairs
  set processed := processLLMMatches pairs (buildMaps ids) with hp
  set unmatchedNames := ns.filter
    (fun n => !(processed.2.contains (toLower n))) with hu
  by_cases hlen : 0 < unmatchedNames.length
  · simp only [hlen, if_pos]
    constructor
    · intro y hy
      rcases mem_foldl_setAdd _ _ |>.mp hy with h' | h'
      · exact hproc.1 y h'
      · exact matchWithNormalization_mem unmatchedNames y h'
    · exact nodup_foldl_setAdd _ hproc.2
  · simp only [hlen, if_neg, if_false]
    exact hproc

theorem matchModelsWithLLM_unfold (env : Env) (U N : List String)
    (hok : validate (strArr U) (strArr N) = .ok ()) :
    matchModelsWithLLM env (strArr U) (strArr N)
      = (if N.length == 0 then .ok []
        else if !env.hasApiKey then .ok (matchWithNormalization N (buildMaps U))
        else
          match (callLLM env.oracle env.cfg).result with
          | .error _ => .ok (matchWithNormalization N (buildMaps U))
          | .ok content =>
            let result := llmMerge N (parseLLMResponse (env.jsonParse content)) (buildMaps U)
            if result.length == 0 then .ok (matchWithNormalization N (buildMaps U))
            else .ok result) := by
  unfold matchModelsWithLLM
  rw [hok, jvalStrings_strArr, jvalStrings_strArr]

theorem mem_foldl_guardAdd (p : String → Bool) :
    ∀ (l acc : List String) (x : String),
      x ∈ l.foldl (fun cs id => if p id then setAdd cs id else cs) acc
        ↔ x ∈ acc ∨ (x ∈ l ∧ p x = true) := by
  intro l
  induction l with
  | nil => simp
  | cons a l ih =>
    intro acc x
    rw [List.foldl_cons]
    by_cases hp : p a = true
    · rw [if_pos hp, ih (setAdd acc a) x, mem_setAdd]
      simp only [List.mem_cons]
      constructor
      · rintro ((h | rfl) | ⟨h1, h2⟩)
        · exact Or.inl h
        · exact Or.inr ⟨Or.inl rfl, hp⟩
        · exact Or.inr ⟨Or.inr h1, h2⟩
      · rintro (h | ⟨(rfl | h1), h2⟩)
        · exact Or.inl (Or.inl h)
        · exact Or.inl (Or.inr rfl)
        · exact Or.inr ⟨h1, h2⟩
    · rw [if_neg hp, ih acc x]
      simp only [List.mem_cons]
      constructor
      · rintro (h | ⟨h1, h2⟩)
        · exact Or.inl h
        · exact Or.inr ⟨Or.inr h1, h2⟩
      · rintro (h | ⟨(rfl | h1), h2⟩)
        · exact Or.inl h
        · exact absurd h2 hp
        · exact Or.inr ⟨h1, h2⟩

theorem mem_allNameTokensOf {t : String} (N : List String) :
    t ∈ allNameTokensOf N ↔ ∃ n ∈ N, t ∈ extractTokens n := by
  unfold allNameTokensOf
  suffices key : ∀ (l acc : List String),
      t ∈ l.foldl (fun acc n => (extractTokens n).foldl setAdd acc) acc
        ↔ t ∈ acc ∨ ∃ n ∈ l, t ∈ extractTokens n by
    simpa using key N []
  intro l
  induction l with
  | nil => simp
  | cons a l ih =>
    intro acc
    rw [List.foldl_cons, ih, mem_foldl_setAdd]
    simp only [List.mem_cons]
    constructor
    · rintro ((h | h) | ⟨n, hn, hnt⟩)
      · exact Or.inl h
      · exact Or.inr ⟨a, Or.inl rfl, h⟩
      · exact Or.inr ⟨n, Or.inr hn, hnt⟩
    · rintro (h | ⟨n, (rfl | hn), hnt⟩)
      · exact Or.inl (Or.inl h)
      · exact Or.inl (Or.inr hnt)
      · exact Or.inr ⟨n, hn, hnt⟩

theorem matchModelsWithLLM_nil (env : Env) (U : List String)
    (hok : validate (strArr U) (strArr []) = .ok ()) :
    matchModelsWithLLM env (strArr U) (strArr []) = .ok [] := by
  rw [matchModelsWithLLM_unfold env U [] hok]
  rfl

theorem matchModelsWithLLM_nokey (env : Env) (U N : List String)
    (hok : validate (strArr U) (strArr N) = .ok ()) (hkey : env.hasApiKey = false) :
    matchModelsWithLLM env (strArr U) (strArr N)
      = .ok (matchWithNormalization N (buildMaps U)) := by
  rw [matchModelsWithLLM_unfold env U N hok]
  by_cases hN : (N.length == 0) = true
  · rw [if_pos hN]
    have hnil : N = [] := List.length_eq_zero.mp (by simpa using hN)
    subst hnil
    rfl
  · rw [if_neg hN, if_pos (by rw [hkey]; rfl)]

theorem matchModelsWithLLM_callError (env : Env) (U N : List String)
    (hok : validate (strArr U) (strArr N) = .ok ()) (e : JsErr)
    (hcall : (callLLM env.oracle env.cfg).result = .error e) :
    matchModelsWithLLM env (strArr U) (strArr N)
      = .ok (matchWithNormalization N (buildMaps U)) := by
  rw [matchModelsWithLLM_unfold env U N hok]
  by_cases hN : (N.length == 0) = true
  · rw [if_pos hN]
    have hnil : N = [] := List.length_eq_zero.mp (by simpa using hN)
    subst hnil
    rfl
  · rw [if_neg hN]
    by_cases hkey : (!env.hasApiKey) = true
    · rw [if_pos hkey]
    · rw [if_neg hkey, hcall]

theorem matchModelsWithLLM_callOk (env : Env) (U N : List String)
    (hok : validate (strArr U) (strArr N) = .ok ()) (hkey : env.hasApiKey = true)
    (hN : N ≠ []) (content : String)
    (hcall : (callLLM env.oracle env.cfg).result = .ok content) :
    matchModelsWithLLM env (strArr U) (strArr N)
      = (if (llmMerge N (parseLLMResponse (env.jsonParse content))
              (buildMaps U)).length == 0
        then .ok (matchWithNormalization N (buildMaps U))
        else .ok (llmMerge N (parseLLMResponse (env.jsonParse content))
              (buildMaps U))) := by
  rw [matchModelsWithLLM_unfold env U N hok]
  rw [if_neg (fun hc => hN (List.length_eq_zero.mp (beq_iff_eq.mp hc)))]
  rw [if_neg (fun hcon => by rw [hkey] at hcon; exact absurd hcon (by decide))]
  rw [hcall]

theorem matchModelsWithLLM_ok_shape (env : Env) (U N : List String)
    (hok : validate (strArr U) (strArr N) = .ok ()) (r : List String)
    (h : matchModelsWithLLM env (strArr U) (strArr N) = .ok r) :
    r = [] ∨ r = matchWithNormalization N (buildMaps U)
      ∨ ∃ pairs, r = llmMerge N pairs (buildMaps U) := by
  by_cases hN : N = []
  · subst hN
    rw [matchModelsWithLLM_nil env U hok] at h
    exact Or.inl (Except.ok.inj h).symm
  · by_cases hkey : env.hasApiKey = false
    · rw [matchModelsWithLLM_nokey env U N hok hkey] at h
      exact Or.inr (Or.inl (Except.ok.inj h).symm)
    · have hkey' : env.hasApiKey = true := by
        cases hb : env.hasApiKey
        · exact absurd hb hkey
        · rfl
      rcases hcall : (callLLM env.oracle env.cfg).result with e | content
      · rw [matchModelsWithLLM_callError env U N hok e hcall] at h
        exact Or.inr (Or.inl (Except.ok.inj h).symm)
      · rw [matchModelsWithLLM_callOk env U N hok hkey' hN content hcall] at h
        by_cases hlen : ((llmMerge N (parseLLMResponse (env.jsonParse content))
            (buildMaps U)).length == 0) = true
        · rw [if_pos hlen] at h
          exact Or.inr (Or.inl (Except.ok.inj h).symm)
        · rw [if_neg hlen] at h
          exact Or.inr (Or.inr
            ⟨parseLLMResponse (env.jsonParse content), (Except.ok.inj h).symm⟩)

theorem exists_ok_ite (c : Prop) [Decidable c] (x y : List String) :
    ∃ r, (if c then (Except.ok x : Except String (List String)) else .ok y) = .ok r := by
  by_cases h : c
  · exact ⟨x, if_pos h⟩
  · exact ⟨y, if_neg h⟩

theorem matchModelsWithLLM_isOk (env : Env) (a n : JVal)
    (h : validate a n = .ok ()) : ∃ r, matchModelsWithLLM env a n = .ok r := by
  unfold matchModelsWithLLM
  simp only [h]
  by_cases hns : ((jvalStrings n).length == 0) = true
  · rw [if_pos hns]
    exact ⟨[], rfl⟩
  · rw [if_neg hns]
    by_cases hkey : (!env.hasApiKey) = true
    · rw [if_pos hkey]
      exact ⟨_, rfl⟩
    · rw [if_neg hkey]
      rcases (callLLM env.oracle env.cfg).result with e | content
      · exact ⟨_, rfl⟩
      · exact exists_ok_ite _ _ _

/-! ### Retry-loop lemmas -/

theorem callLLMFrom_zero (oracle : Nat → Except JsErr (Option String))
    (cfg : RetryConfig) (i : Nat) (last : Option String) :
    callLLMFrom oracle cfg 0 i last
      = { result := .error (.err ("LLM failed after " ++ toString cfg.maxRetries
            ++ " attempts: " ++ last.getD "undefined"))
          attempts := 0
          delays := [] } := rfl

theorem callLLMFrom_ok (oracle : Nat → Except JsErr (Option String))
    (cfg : RetryConfig) (rem i : Nat) (last : Option String) (c : Option String)
    (h : oracle i = .ok c) :
    callLLMFrom oracle cfg (rem + 1) i last
      = { result := .ok (contentOrDefault c), attempts := 1, delays := [] } := by
  simp only [callLLMFrom, h]

theorem callLLMFrom_err_retry (oracle : Nat → Except JsErr (Option String))
    (cfg : RetryConfig) (rem i : Nat) (last : Option String) (e : JsErr)
    (h : oracle i = .error e) (hr : isRetryable e = true) :
    callLLMFrom oracle cfg (rem + 1) i last
      = { result := (callLLMFrom oracle cfg rem (i + 1) (some (errMessage e))).result
          attempts := (callLLMFrom oracle cfg rem (i + 1) (some (errMessage e))).attempts + 1
          delays :=
            (if i < cfg.maxRetries then [cfg.initialDelayMs * 2 ^ (i - 1)] else [])
              ++ (callLLMFrom oracle cfg rem (i + 1) (some (errMessage e))).delays } := by
  simp only [callLLMFrom, h, hr, if_true]

theorem callLLMFrom_err_stop (oracle : Nat → Except JsErr (Option String))
    (cfg : RetryConfig) (rem i : Nat) (last : Option String) (e : JsErr)
    (h : oracle i = .error e) (hr : isRetryable e = false) :
    callLLMFrom oracle cfg (rem + 1) i last
      = { result := .error e, attempts := 1, delays := [] } := by
  simp only [callLLMFrom, h, hr]
  rfl

theorem callLLMFrom_attempts_le (oracle : Nat → Except JsErr (Option String))
    (cfg : RetryConfig) :
    ∀ (rem i : Nat) (last : Option String),
      (callLLMFrom oracle cfg rem i last).attempts ≤ rem := by
  intro rem
  induction rem with
  | zero => intro i last; rw [callLLMFrom_zero]
  | succ rem ih =>
    intro i last
    rcases ho : oracle i with e | c
    · cases hR : isRetryable e
      · rw [callLLMFrom_err_stop oracle cfg rem i last e ho hR]
        dsimp only
        omega
      · rw [callLLMFrom_err_retry oracle cfg rem i last e ho hR]
        dsimp only
        exact Nat.succ_le_succ (ih (i + 1) (some (errMessage e)))
    · rw [callLLMFrom_ok oracle cfg rem i last c ho]
      dsimp only
      omega

theorem callLLMFrom_attempts_pos (oracle : Nat → Except JsErr (Option String))
    (cfg : RetryConfig) (rem i : Nat) (last : Option String) (h : 1 ≤ rem) :
    1 ≤ (callLLMFrom oracle cfg rem i last).attempts := by
  cases rem with
  | zero => omega
  | succ rem =>
    rcases ho : oracle i with e | c
    · cases hR : isRetryable e
      · rw [callLLMFrom_err_stop oracle cfg rem i last e ho hR]
      · rw [callLLMFrom_err_retry oracle cfg rem i last e ho hR]
        dsimp only
        omega
    · rw [callLLMFrom_ok oracle cfg rem i last c ho]

theorem callLLMFrom_delays (oracle : Nat → Except JsErr (Option String))
    (cfg : RetryConfig) :
    ∀ (rem i : Nat) (last : Option String), 1 ≤ i → i + rem = cfg.maxRetries + 1 →
      (callLLMFrom oracle cfg rem i last).delays
        = (List.range ((callLLMFrom oracle cfg rem i last).attempts - 1)).map
            (fun k => cfg.initialDelayMs * 2 ^ (i - 1 + k)) := by
  intro rem
  induction rem with
  | zero =>
    intro i last hi hsum
    rw [callLLMFrom_zero]
    rfl
  | succ rem ih =>
    intro i last hi hsum
    rcases ho : oracle i with e | c
    · cases hR : isRetryable e
      · rw [callLLMFrom_err_stop oracle cfg rem i last e ho hR]
        rfl
      · rw [callLLMFrom_err_retry oracle cfg rem i last e ho hR]
        dsimp only
        cases rem with
        | zero =>
          have hguard : ¬(i < cfg.maxRetries) := by omega
          rw [if_neg hguard, callLLMFrom_zero]
          rfl
        | succ rem2 =>
          have hguard : i < cfg.maxRetries := by omega
          rw [if_pos hguard]
          have hrest := ih (i + 1) (some (errMessage e)) (by omega) (by omega)
          have hpos := callLLMFrom_attempts_pos oracle cfg (rem2 + 1) (i + 1)
            (some (errMessage e)) (by omega)
          rw [hrest]
          obtain ⟨b, hb⟩ : ∃ b,
              (callLLMFrom oracle cfg (rem2 + 1) (i + 1) (some (errMessage e))).attempts
                = b + 1 :=
            ⟨(callLLMFrom oracle cfg (rem2 + 1) (i + 1) (some (errMessage e))).attempts - 1,
              by omega⟩
          rw [hb]
          simp only [Nat.add_sub_cancel, List.range_succ_eq_map, List.map_cons,
            List.map_map, List.singleton_append]
          congr 1
          have hfun : (fun k => cfg.initialDelayMs * 2 ^ (i + k))
              = ((fun k => cfg.initialDelayMs * 2 ^ (i - 1 + k)) ∘ Nat.succ) := by
            funext k
            simp only [Function.comp]
            have he : i + k = i - 1 + Nat.succ k := by omega
            rw [he]
          rw [hfun]
    · rw [callLLMFrom_ok oracle cfg rem i last c ho]
      rfl

theorem callLLMFrom_nonretryable (oracle : Nat → Except JsErr (Option String))
    (cfg : RetryConfig) :
    ∀ (rem i : Nat) (last : Option String) (k : Nat) (e : JsErr),
      i + rem = cfg.maxRetries + 1 → i ≤ k → k ≤ cfg.maxRetries →
      (∀ j, i ≤ j → j < k → ∃ ej, oracle j = .error ej ∧ isRetryable ej = true) →
      oracle k = .error e → isRetryable e = false →
      (callLLMFrom oracle cfg rem i last).result = .error e
        ∧ (callLLMFrom oracle cfg rem i last).attempts = k - i + 1 := by
  intro rem
  induction rem with
  | zero =>
    intro i last k e hsum hik hkm hpre hke hnr
    exfalso
    omega
  | succ rem ih =>
    intro i last k e hsum hik hkm hpre hke hnr
    by_cases hik2 : i = k
    · subst hik2
      rw [callLLMFrom_err_stop oracle cfg rem i last e hke hnr]
      refine ⟨rfl, ?_⟩
      dsimp only
      omega
    · have hikk : i < k := lt_of_le_of_ne hik hik2
      obtain ⟨ei, hei, hri⟩ := hpre i (le_refl i) hikk
      rw [callLLMFrom_err_retry oracle cfg rem i last ei hei hri]
      dsimp only
      have hrec := ih (i + 1) (some (errMessage ei)) k e (by omega) (by omega) hkm
        (fun j hj1 hj2 => hpre j (by omega) hj2) hke hnr
      refine ⟨hrec.1, ?_⟩
      rw [hrec.2]
      omega

theorem callLLMFrom_exhaust (oracle : Nat → Except JsErr (Option String))
    (cfg : RetryConfig) (em : JsErr) (hm : oracle cfg.maxRetries = .error em) :
    ∀ (rem i : Nat) (last : Option String),
      i + rem = cfg.maxRetries + 1 →
      (∀ j, i ≤ j → j ≤ cfg.maxRetries → ∃ ej, oracle j = .error ej ∧ isRetryable ej = true) →
      (rem = 0 → last = some (errMessage em)) →
      (callLLMFrom oracle cfg rem i last).result
          = .error (.err ("LLM failed after " ++ toString cfg.maxRetries
            ++ " attempts: " ++ errMessage em))
        ∧ (callLLMFrom oracle cfg rem i last).attempts = rem := by
  intro rem
  induction rem with
  | zero =>
    intro i last hsum hall hlast
    have hl := hlast rfl
    subst hl
    exact ⟨rfl, rfl⟩
  | succ rem ih =>
    intro i last hsum hall hlast
    have hiM : i ≤ cfg.maxRetries := by omega
    obtain ⟨ei, hei, hri⟩ := hall i (le_refl i) hiM
    rw [callLLMFrom_err_retry oracle cfg rem i last ei hei hri]
    dsimp only
    have hlast2 : rem = 0 → some (errMessage ei) = some (errMessage em) := by
      intro h0
      have him : i = cfg.maxRetries := by omega
      rw [him, hm] at hei
      rw [Except.error.inj hei]
    have hrec := ih (i + 1) (some (errMessage ei)) (by omega)
      (fun j hj1 hj2 => hall j (by omega) hj2) hlast2
    exact ⟨hrec.1, by rw [hrec.2]⟩

/-! ### Spec-side invalid-input predicate (the claim's wording) -/

def isArr : JVal → Bool
  | .arr _ => true
  | _ => false

def elemsOf : JVal → List JVal
  | .arr l => l
  | _ => []

/-- An argument is not an array, or some element of either array is not a
string that is non-empty after trimming. -/
def invalidCall (apiIds names : JVal) : Bool :=
  !(isArr apiIds) || !(isArr names)
    || (elemsOf apiIds).any badElem || (elemsOf names).any badElem

theorem validate_error_iff (a n : JVal) :
    (∃ e, validate a n = .error e) ↔ invalidCall a n = true := by
  cases a with
  | arr ids =>
    cases n with
    | arr ns =>
      unfold validate invalidCall isArr elemsOf
      by_cases h1 : ids.any badElem = true
      · simp [h1]
      · by_cases h2 : ns.any badElem = true
        · simp [h1, h2]
        · simp [h1, h2]
    | str s => simp [validate, invalidCall, isArr]
    | other => simp [validate, invalidCall, isArr]
  | str s => simp [validate, invalidCall, isArr]
  | other => simp [validate, invalidCall, isArr]

/-! ### JSON shape encodings for the response-parsing claim -/

/-- The canonical JSON encoding of a `\x7bdisplayName, apiId\x7d` pair. -/
def pairJson (p : MatchPair) : Json :=
  .obj [("displayName", .str p.displayName), ("apiId", .str p.apiId)]

/-- The canonical JSON encoding of a record of pair arrays. -/
def recordJson (rps : List (String × List MatchPair)) : Json :=
  .obj (rps.map (fun q => (q.1, Json.arr (q.2.map pairJson))))

theorem parsePair_pairJson (p : MatchPair) : parsePair (pairJson p) = some p := rfl

theorem parsePairs_map (ps : List MatchPair) :
    parsePairs (ps.map pairJson) = some ps := by
  induction ps with
  | nil => rfl
  | cons p ps ih => simp [parsePairs, parsePair_pairJson, ih]

theorem zodParse_matchesObj {kvs : List (String × Json)} {ps : List MatchPair}
    (h : jlookup kvs "matches" = some (.arr (ps.map pairJson))) :
    zodParse (.obj kvs) = some (.matchesObj ps) := by
  unfold zodParse parseMatchesObj
  dsimp only
  rw [h]
  simp [parsePairs_map]

theorem zodParse_bareArr (ps : List MatchPair) :
    zodParse (.arr (ps.map pairJson)) = some (.bareArr ps) := by
  unfold zodParse parseMatchesObj parseBareArr
  simp [parsePairs_map]

theorem parseRecordFields_map (rps : List (String × List MatchPair)) :
    parseRecordFields (rps.map (fun q => (q.1, Json.arr (q.2.map pairJson))))
      = some rps := by
  induction rps with
  | nil => rfl
  | cons q rest ih => simp [parseRecordFields, parsePairs_map, ih]

theorem zodParse_record (rps : List (String × List MatchPair))
    (hnm : rps.find? (fun q => q.1 == "matches") = none) :
    zodParse (recordJson rps) = some (.record rps) := by
  unfold zodParse parseMatchesObj parseBareArr recordJson
  have hlook : jlookup (rps.map (fun q => (q.1, Json.arr (q.2.map pairJson)))) "matches"
      = none := by
    unfold jlookup
    rw [List.find?_map]
    have hcomp : ((fun p : String × Json => p.1 == "matches")
        ∘ fun q : String × List MatchPair => (q.1, Json.arr (q.2.map pairJson)))
        = fun q : String × List MatchPair => q.1 == "matches" := rfl
    rw [hcomp, hnm]
    rfl
  dsimp only
  rw [hlook]
  simp [parseRecordFields_map]

/-! ### Claim theorems -/

/-- C1: on inputs that pass validation, and whatever the environment does
(any transport outcome, any JSON parse result — hence any LLM response
content), both `matchModels` and `matchModelsWithLLM` return only identifiers
drawn from the input identifier list, with no duplicates. -/
theorem matching_soundness_and_no_duplicates (U N : List String) (env : Env)
    (r rL : List String)
    (h1 : matchModels (strArr U) (strArr N) = .ok r)
    (h2 : matchModelsWithLLM env (strArr U) (strArr N) = .ok rL) :
    (∀ x ∈ r, x ∈ U) ∧ r.Nodup ∧ (∀ x ∈ rL, x ∈ U) ∧ rL.Nodup := by
  rcases hval : validate (strArr U) (strArr N) with e | u
  · unfold matchModels at h1
    rw [hval] at h1
    exact Except.noConfusion h1
  · cases u
    have hr : r = matchWithNormalization N (buildMaps U) := by
      have hm := matchModels_strArr hval
      rw [hm] at h1
      exact (Except.ok.inj h1).symm
    subst hr
    have hshape := matchModelsWithLLM_ok_shape env U N hval rL h2
    refine ⟨fun x hx => matchWithNormalization_mem N x hx,
      matchWithNormalization_nodup N _, ?_, ?_⟩
    · rcases hshape with hs | hs | ⟨pairs, hs⟩
      · subst hs; intro x hx; cases hx
      · subst hs; exact fun x hx => matchWithNormalization_mem N x hx
      · subst hs; exact (llmMerge_invariant U N pairs).1
    · rcases hshape with hs | hs | ⟨pairs, hs⟩
      · subst hs; exact List.nodup_nil
      · subst hs; exact matchWithNormalization_nodup N _
      · subst hs; exact (llmMerge_invariant U N pairs).2

/-- C1 witness: the soundness conjunction at a concrete validated input and
environment. -/
theorem matching_soundness_and_no_duplicates_witness :
    (∀ x ∈ ["gpt-4"], x ∈ ["gpt-4", "claude-3"]) ∧ List.Nodup ["gpt-4"]
      ∧ (∀ x ∈ ["gpt-4"], x ∈ ["gpt-4", "claude-3"]) ∧ List.Nodup ["gpt-4"] :=
  matching_soundness_and_no_duplicates ["gpt-4", "claude-3"] ["GPT 4"]
    ⟨false, fun _ => .error (.other ""), fun _ => none, ⟨3, 500⟩⟩
    ["gpt-4"] ["gpt-4"] (by rfl) (by rfl)

/-- C2: on validated inputs `matchModelsWithLLM` always returns a value; if
the retrying call raises (non-retryable error or retry exhaustion alike) the
result is exactly the deterministic matcher over the full name list, and if
the reconciled LLM result set is empty the result is likewise the
deterministic matcher over the full name list. -/
theorem matchModelsWithLLM_graceful_degradation (env : Env) (U N : List String)
    (hok : validate (strArr U) (strArr N) = .ok ()) :
    (∃ r, matchModelsWithLLM env (strArr U) (strArr N) = .ok r)
      ∧ (∀ e, (callLLM env.oracle env.cfg).result = .error e →
          matchModelsWithLLM env (strArr U) (strArr N)
            = .ok (matchWithNormalization N (buildMaps U)))
      ∧ (∀ content, (callLLM env.oracle env.cfg).result = .ok content →
          llmMerge N (parseLLMResponse (env.jsonParse content)) (buildMaps U) = [] →
          matchModelsWithLLM env (strArr U) (strArr N)
            = .ok (matchWithNormalization N (buildMaps U))) := by
  refine ⟨matchModelsWithLLM_isOk env _ _ hok,
    fun e hcall => matchModelsWithLLM_callError env U N hok e hcall,
    fun content hcall hempty => ?_⟩
  by_cases hN : N = []
  · subst hN
    rw [matchModelsWithLLM_nil env U hok]
    rfl
  · by_cases hkey : env.hasApiKey = false
    · exact matchModelsWithLLM_nokey env U N hok hkey
    · have hkey' : env.hasApiKey = true := by
        cases hb : env.hasApiKey
        · exact absurd hb hkey
        · rfl
      rw [matchModelsWithLLM_callOk env U N hok hkey' hN content hcall, hempty]
      rfl

/-- C2 witness: a non-retryable transport failure on a concrete input falls
back to the deterministic result. -/
theorem matchModelsWithLLM_graceful_degradation_witness :
    matchModelsWithLLM ⟨true, fun _ => .error (.other "boom"), fun _ => none, ⟨3, 500⟩⟩
        (strArr ["gpt-4"]) (strArr ["GPT 4"])
      = .ok (matchWithNormalization ["GPT 4"] (buildMaps ["gpt-4"])) :=
  (matchModelsWithLLM_graceful_degradation
      ⟨true, fun _ => .error (.other "boom"), fun _ => none, ⟨3, 500⟩⟩
      ["gpt-4"] ["GPT 4"] (by rfl)).2.1 (.other "boom") (by rfl)

/-- C5: each public entry point fails exactly when an argument is not an
array or some element of either array is not a string that is non-empty
after trimming; on failure the result is the validation error itself,
identical for every environment (so no index building, prefiltering or
network access can influence it). -/
theorem validation_raises_iff (a n : JVal) :
    ((∃ e, matchModels a n = .error e) ↔ invalidCall a n = true)
      ∧ (∀ env, (∃ e, matchModelsWithLLM env a n = .error e) ↔ invalidCall a n = true)
      ∧ (∀ e, validate a n = .error e →
          matchModels a n = .error e ∧ ∀ env, matchModelsWithLLM env a n = .error e) := by
  have hv := validate_error_iff a n
  refine ⟨⟨?_, ?_⟩, fun env => ⟨?_, ?_⟩, fun e he => ⟨?_, fun env => ?_⟩⟩
  · rintro ⟨e, he⟩
    rcases hval : validate a n with e' | u
    · exact hv.mp ⟨e', hval⟩
    · cases u
      unfold matchModels at he
      rw [hval] at he
      exact Except.noConfusion he
  · intro hinv
    rcases hv.mpr hinv with ⟨e, he⟩
    exact ⟨e, by unfold matchModels; rw [he]⟩
  · rintro ⟨e, he⟩
    rcases hval : validate a n with e' | u
    · exact hv.mp ⟨e', hval⟩
    · cases u
      rcases matchModelsWithLLM_isOk env a n hval with ⟨r, hr⟩
      rw [hr] at he
      exact Except.noConfusion he
  · intro hinv
    rcases hv.mpr hinv with ⟨e, he⟩
    exact ⟨e, by unfold matchModelsWithLLM; rw [he]⟩
  · unfold matchModels; rw [he]
  · unfold matchModelsWithLLM; rw [he]

/-- C5 witness: a non-array first argument produces the validation error from
both entry points, for a concrete environment. -/
theorem validation_raises_iff_witness :
    matchModels JVal.other (JVal.arr []) = .error "apiIds must be an array"
      ∧ matchModelsWithLLM ⟨false, fun _ => .error (.other ""), fun _ => none, ⟨1, 1⟩⟩
          JVal.other (JVal.arr []) = .error "apiIds must be an array" := by
  have h := (validation_raises_iff JVal.other (JVal.arr [])).2.2
    "apiIds must be an array" (by rfl)
  exact ⟨h.1, h.2 _⟩

/-- C7: with no LLM credential configured, `matchModelsWithLLM` returns
exactly what `matchModels` returns, for every input and independently of the
transport and parsing oracles (which are never consulted). -/
theorem no_credential_equivalence (env : Env) (apiIds names : JVal)
    (hkey : env.hasApiKey = false) :
    matchModelsWithLLM env apiIds names = matchModels apiIds names := by
  unfold matchModelsWithLLM matchModels
  rcases hval : validate apiIds names with e | u
  · rfl
  · cases u
    simp only
    by_cases hns : ((jvalStrings names).length == 0) = true
    · rw [if_pos hns]
      have hnil : jvalStrings names = [] := List.length_eq_zero.mp (by simpa using hns)
      rw [hnil]
      rfl
    · rw [if_neg hns, if_pos (by rw [hkey]; rfl)]

/-- C7 witness: equivalence at a concrete input and credential-less
environment. -/
theorem no_credential_equivalence_witness :
    matchModelsWithLLM ⟨false, fun _ => .error (.other ""), fun _ => none, ⟨1, 1⟩⟩
        (strArr ["gpt-4"]) (strArr ["GPT 4"])
      = matchModels (strArr ["gpt-4"]) (strArr ["GPT 4"]) :=
  no_credential_equivalence ⟨false, fun _ => .error (.other ""), fun _ => none, ⟨1, 1⟩⟩
    (strArr ["gpt-4"]) (strArr ["GPT 4"]) (by rfl)

/-- C3 counterexample: the identifier "ab" equals the display name "a-b" up
to case and punctuation (identical normalization keys), yet
`prefilterCandidates ["ab"] ["a-b"]` does not include it — single-letter
fragments produce no significant token, so the token-overlap test fails and
"ab" does not end in "-free". -/
theorem prefilter_norm_equality_counterexample :
    norm "ab" = norm "a-b" ∧ "ab" ∈ ["ab"]
      ∧ "ab" ∉ prefilterCandidates ["ab"] ["a-b"] :=
  ⟨rfl, by decide, by decide⟩

/-- C3 (amended): every identifier in U that shares at least one significant
token (a numeric token or an alphabetic run of length at least 2, lowercased)
with some display name in N is included in `prefilterCandidates U N`, and so
is every identifier whose lowercase form ends in "-free". -/
theorem prefilter_token_soundness (U N : List String) (id : String) (hid : id ∈ U)
    (h : (∃ t n, n ∈ N ∧ t ∈ extractTokens id ∧ t ∈ extractTokens n)
      ∨ strEndsWith (toLower id) "-free" = true) :
    id ∈ prefilterCandidates U N := by
  unfold prefilterCandidates
  rcases h with ⟨t, n, hn, htid, htn⟩ | hfree
  · have hover : id ∈ overlapCandidates U N := by
      unfold overlapCandidates
      refine (mem_foldl_guardAdd
        (fun i => (extractTokens i).any (fun t => decide (t ∈ allNameTokensOf N)))
        U [] id).mpr (Or.inr ⟨hid, ?_⟩)
      apply List.any_eq_true.mpr
      exact ⟨t, htid, decide_eq_true ((mem_allNameTokensOf N).mpr ⟨n, hn, htn⟩)⟩
    exact (mem_foldl_guardAdd (fun i => strEndsWith (toLower i) "-free") U
      (overlapCandidates U N) id).mpr (Or.inl hover)
  · exact (mem_foldl_guardAdd (fun i => strEndsWith (toLower i) "-free") U
      (overlapCandidates U N) id).mpr (Or.inr ⟨hid, hfree⟩)

/-- C3 witness: "glm-4.7-free" shares token "4.7" with "GLM 4.7" and is
included by the prefilter. -/
theorem prefilter_token_soundness_witness :
    "glm-4.7-free" ∈ prefilterCandidates ["glm-4.7-free"] ["GLM 4.7"] :=
  prefilter_token_soundness ["glm-4.7-free"] ["GLM 4.7"] "glm-4.7-free" (by decide)
    (Or.inl ⟨"4.7", "GLM 4.7", by decide, by decide, by decide⟩)

/-- C4: on validated inputs `matchModels` computes exactly the per-name
resolution that looks up `norm name` in the (last-write-wins) normalized
index and, only on a miss, `norm name ++ "free"`, dropping unresolved names
silently; on the literal example the result contains all three identifiers. -/
theorem matchModels_deterministic_algorithm :
    (∀ (U N : List String), validate (strArr U) (strArr N) = .ok () →
        matchModels (strArr U) (strArr N) = .ok (matchDeterministicSpec U N))
      ∧ matchModels (strArr ["big-pickle", "minimax-m2.1-free", "glm-4.7-free"])
          (strArr ["Big Pickle", "MiniMax M2.1", "GLM 4.7"])
        = .ok ["big-pickle", "minimax-m2.1-free", "glm-4.7-free"] := by
  constructor
  · intro U N hok
    rw [matchModels_strArr hok,
      matchWithNormalization_eq_spec N ((validate_strArr_iff U N).mp hok).1]
  · rfl

/-- C4 witness: the refinement applied to a concrete validated input. -/
theorem matchModels_deterministic_algorithm_witness :
    matchModels (strArr ["gpt-4"]) (strArr ["GPT 4"])
      = .ok (matchDeterministicSpec ["gpt-4"] ["GPT 4"]) :=
  matchModels_deterministic_algorithm.1 ["gpt-4"] ["GPT 4"] (by rfl)

/-- C9: `buildMaps` is total, both maps resolve a key to the last identifier
in input order that produces that key (last write wins), every stored value
is an element of the input list, and on a concrete collision the later
identifier is retained and is what a colliding name resolves to. -/
theorem buildMaps_last_write_wins :
    (∀ (ids : List String) (k : String),
        mapGet (buildMaps ids).lower k = ids.reverse.find? (fun i => toLower i == k)
          ∧ mapGet (buildMaps ids).normalized k
            = ids.reverse.find? (fun i => norm i == k))
      ∧ (∀ (ids : List String) (k v : String),
          mapGet (buildMaps ids).lower k = some v
            ∨ mapGet (buildMaps ids).normalized k = some v → v ∈ ids)
      ∧ mapGet (buildMaps ["Model-A", "model-a"]).normalized "modela" = some "model-a"
      ∧ matchModels (strArr ["Model-A", "model-a"]) (strArr ["MODEL A"])
        = .ok ["model-a"] := by
  refine ⟨fun ids k => ⟨mapGet_buildMaps_lower ids k, mapGet_buildMaps_normalized ids k⟩,
    fun ids k v h => ?_, rfl, rfl⟩
  rcases h with h | h
  · exact mapGet_buildMaps_lower_mem h
  · exact mapGet_buildMaps_normalized_mem h

/-- C9 witness: the value-membership conjunct at a concrete collided key. -/
theorem buildMaps_last_write_wins_witness :
    "model-a" ∈ ["Model-A", "model-a"] :=
  buildMaps_last_write_wins.2.1 ["Model-A", "model-a"] "modela" "model-a"
    (Or.inr (by rfl))

/-- C6: `callLLM` makes at most `maxRetries` backend attempts; the delay
slept after the k-th (retryably failed) attempt is
`initialDelayMs * 2 ^ (k - 1)`; an error classified non-retryable is
re-raised immediately with no further attempts; and when all `maxRetries`
attempts fail retryably the loop raises a terminal error whose message
carries the attempt count and the last error's message. -/
theorem callLLM_retry_policy (oracle : Nat → Except JsErr (Option String))
    (cfg : RetryConfig) :
    (callLLM oracle cfg).attempts ≤ cfg.maxRetries
      ∧ (callLLM oracle cfg).delays
          = (List.range ((callLLM oracle cfg).attempts - 1)).map
              (fun k => cfg.initialDelayMs * 2 ^ k)
      ∧ (∀ k e, 1 ≤ k → k ≤ cfg.maxRetries →
          (∀ j, 1 ≤ j → j < k → ∃ ej, oracle j = .error ej ∧ isRetryable ej = true) →
          oracle k = .error e → isRetryable e = false →
          (callLLM oracle cfg).result = .error e ∧ (callLLM oracle cfg).attempts = k)
      ∧ (∀ em, 1 ≤ cfg.maxRetries →
          (∀ j, 1 ≤ j → j ≤ cfg.maxRetries →
            ∃ ej, oracle j = .error ej ∧ isRetryable ej = true) →
          oracle cfg.maxRetries = .error em →
          (callLLM oracle cfg).result
              = .error (.err ("LLM failed after " ++ toString cfg.maxRetries
                ++ " attempts: " ++ errMessage em))
            ∧ (callLLM oracle cfg).attempts = cfg.maxRetries) := by
  refine ⟨callLLMFrom_attempts_le oracle cfg cfg.maxRetries 1 none, ?_, ?_, ?_⟩
  · unfold callLLM
    have hd := callLLMFrom_delays oracle cfg cfg.maxRetries 1 none (le_refl 1) (by omega)
    rw [hd]
    have hfun : (fun k => cfg.initialDelayMs * 2 ^ (1 - 1 + k))
        = (fun k => cfg.initialDelayMs * 2 ^ k) := by
      funext k
      have he : 1 - 1 + k = k := by omega
      rw [he]
    rw [hfun]
  · intro k e hk1 hkm hpre hke hnr
    unfold callLLM
    have hres := callLLMFrom_nonretryable oracle cfg cfg.maxRetries 1 none k e
      (by omega) hk1 hkm (fun j hj1 hj2 => hpre j hj1 hj2) hke hnr
    exact ⟨hres.1, by rw [hres.2]; omega⟩
  · intro em hm1 hall hem
    unfold callLLM
    exact callLLMFrom_exhaust oracle cfg em hem cfg.maxRetries 1 none (by omega)
      (fun j hj1 hj2 => hall j hj1 hj2) (fun h0 => absurd h0 (by omega))

/-- C6 witness: three retryable timeouts with maxRetries = 3 raise the
terminal error carrying the attempt count and last message. -/
theorem callLLM_retry_policy_witness :
    (callLLM (fun _ => .error (.err "timeout")) ⟨3, 500⟩).result
        = .error (.err ("LLM failed after " ++ toString (3 : Nat) ++ " attempts: "
            ++ errMessage (.err "timeout")))
      ∧ (callLLM (fun _ => .error (.err "timeout")) ⟨3, 500⟩).attempts = 3 :=
  (callLLM_retry_policy (fun _ => .error (.err "timeout")) ⟨3, 500⟩).2.2.2
    (.err "timeout") (by decide)
    (fun j _ _ => ⟨.err "timeout", rfl, by decide⟩) rfl

/-- C8: `parseLLMResponse` is total (returns a list for every parse outcome)
and returns the pair list for each of the three accepted shapes — an object
carrying a `matches` pair array, a bare pair array, and an object all of
whose values are pair arrays (first key's value returned) — while yielding
the empty list for unparseable JSON and for every shape the schema rejects. -/
theorem parseLLMResponse_shapes :
    parseLLMResponse none = []
      ∧ (∀ (kvs : List (String × Json)) (ps : List MatchPair),
          jlookup kvs "matches" = some (.arr (ps.map pairJson)) →
          parseLLMResponse (some (.obj kvs)) = ps)
      ∧ (∀ ps : List MatchPair, parseLLMResponse (some (.arr (ps.map pairJson))) = ps)
      ∧ (∀ (k : String) (ps : List MatchPair) (rest : List (String × List MatchPair)),
          ((k, ps) :: rest).find? (fun q => q.1 == "matches") = none →
          parseLLMResponse (some (recordJson ((k, ps) :: rest))) = ps)
      ∧ (∀ j : Json, zodParse j = none → parseLLMResponse (some j) = []) := by
  refine ⟨rfl, ?_, ?_, ?_, ?_⟩
  · intro kvs ps h
    simp only [parseLLMResponse, zodParse_matchesObj h]
  · intro ps
    simp only [parseLLMResponse, zodParse_bareArr]
  · intro k ps rest hnm
    simp only [parseLLMResponse, zodParse_record ((k, ps) :: rest) hnm, hnm]
  · intro j h
    simp only [parseLLMResponse, h]

/-- C8 witness: the `matches`-object shape at a concrete response. -/
theorem parseLLMResponse_shapes_witness :
    parseLLMResponse
        (some (.obj [("matches", .arr [pairJson ⟨"GLM 4.7", "glm-4.7-free"⟩])]))
      = [⟨"GLM 4.7", "glm-4.7-free"⟩] :=
  parseLLMResponse_shapes.2.1
    [("matches", .arr [pairJson ⟨"GLM 4.7", "glm-4.7-free"⟩])]
    [⟨"GLM 4.7", "glm-4.7-free"⟩] rfl

/-- C10: an all-punctuation display name such as "@@@" passes validation,
normalizes to the empty string, and is matched to an identifier whose
normalization key is "free" (such as "FREE" or "-free") via the "+free"
lookup; when some identifier also normalizes to the empty string ("---"),
the plain lookup wins and resolves to that identifier. -/
theorem empty_normalization_key_matching :
    norm "@@@" = "" ∧ norm "FREE" = "free" ∧ norm "-free" = "free" ∧ norm "---" = ""
      ∧ matchModels (strArr ["FREE"]) (strArr ["@@@"]) = .ok ["FREE"]
      ∧ matchModels (strArr ["-free"]) (strArr ["@@@"]) = .ok ["-free"]
      ∧ matchModels (strArr ["---", "FREE"]) (strArr ["@@@"]) = .ok ["---"] :=
  ⟨rfl, rfl, rfl, rfl, rfl, rfl, rfl⟩

end ZenMatch
